import Mathlib

/-!
Shallow embedding of `src/scripts/find_relevant_skills.py` (the skill-matching
pipeline: entity extraction, weighted fuzzy scoring, noise filtering, ranking,
bundle expansion, and report generation), together with theorems checking the
specification's claims against it.

Modelling conventions:
* Python strings are Lean `String`s (`List Char` underneath); Python floats are
  exact rationals `ℚ` (the scoring arithmetic `x * 0.4 + y * 0.4 + z * 0.2` is
  embedded exactly).
* The external `rapidfuzz` similarity primitives (`fuzz.partial_ratio`,
  `fuzz.token_set_ratio`) are not code of this repository; they are abstracted
  as a pair of function parameters (`FuzzOps`).  `utils.default_process`, whose
  behaviour is fixed by its documentation (lowercase, map non-alphanumeric
  characters to spaces, trim), is embedded concretely.
* Python `set`s of strings become `Finset String`; `list(set(xs))`, whose
  iteration order Python leaves unspecified, is modelled as first-occurrence
  deduplication (`List.dedup`); no claim depends on that order.
* Python's `list.sort(key=..., reverse=True)` is a stable descending sort; any
  two stable sorts agree extensionally, so it is embedded as a structural
  insertion sort that inserts an element before the first element whose score
  is not strictly greater.
-/

namespace FindSkills

/-- `Skill` record (`@dataclass Skill` in the source). -/
structure Skill where
  name : String
  description : String
  tags : String
  triggers : String
  full_text : String
deriving DecidableEq

/-- `Bundle` record (`@dataclass Bundle` in the source). -/
structure Bundle where
  name : String
  description : String
  skills : List String
deriving DecidableEq

/-- `SearchResult` record (`@dataclass SearchResult` in the source); the
Python `float` score is embedded as an exact rational. -/
structure SearchResult where
  skill : Skill
  score : ℚ
deriving DecidableEq

/-- `NOISE_THRESHOLD = 55.0` from the source. -/
def NOISE_THRESHOLD : ℚ := 55

/-- `HIGH_CONFIDENCE = 75.0` from the source. -/
def HIGH_CONFIDENCE : ℚ := 75

/-- Abstract interface to the two external `rapidfuzz` similarity primitives
used by the source (`fuzz.partial_ratio` and `fuzz.token_set_ratio`, both
called with their default `processor=None`, i.e. on the raw argument
strings).  The library returns values in `[0, 100]`; theorems that need that
fact take it as a hypothesis. -/
structure FuzzOps where
  partial_ratio : String → String → ℚ
  token_set_ratio : String → String → ℚ

/-- One character step of `rapidfuzz.utils.default_process`: alphanumeric
characters are lowercased, every other character becomes a space. -/
def processChar (c : Char) : Char :=
  if c.isAlphanum then c.toLower else ' '

/-- Trim leading and trailing whitespace from a character list (Python
`str.strip`). -/
def trimChars (l : List Char) : List Char :=
  ((l.dropWhile Char.isWhitespace).reverse.dropWhile Char.isWhitespace).reverse

/-- `rapidfuzz.utils.default_process`: lowercase, replace non-alphanumeric
characters by spaces, trim surrounding whitespace. -/
def default_process (s : String) : String :=
  ⟨trimChars (s.data.map processChar)⟩

/-- `calculate_relevance(query, skill)` from the source: the query is
normalized with `default_process`, the three skill-side strings are passed to
the similarity primitives as they are, and the three component scores are
combined with weights 0.4 / 0.4 / 0.2 (written `4/10`, `2/10` so that the
rational arithmetic evaluates by kernel reduction). -/
def calculate_relevance (ops : FuzzOps) (query : String) (skill : Skill) : ℚ :=
  let q := default_process query
  let name_score := ops.partial_ratio q skill.name
  let trigger_score := ops.token_set_ratio q skill.triggers
  let text_score := ops.token_set_ratio q skill.full_text
  name_score * (4/10) + trigger_score * (4/10) + text_score * (2/10)

/-- Constant similarity primitives (every comparison scores 60); a concrete
instantiation of the abstract `rapidfuzz` interface used by witnesses. -/
def constOps : FuzzOps :=
  { partial_ratio := fun _ _ => 60
    token_set_ratio := fun _ _ => 60 }

/-- A concrete skill used by witnesses. -/
def sk0 : Skill :=
  { name := "docker"
    description := "Container tooling"
    tags := "docker containers"
    triggers := "docker, containers"
    full_text := "docker Container tooling docker containers docker, containers" }

/-- Python `text.replace(c, r)` for a single-character pattern: pointwise
substitution. -/
def replaceChar (c r : Char) (l : List Char) : List Char :=
  l.map (fun x => if x = c then r else x)

/-- Python `text.replace("â€¢", "\n")` as it appears in the source: the
delimiter literal in `extract_search_entities` is the three-character
sequence `'â'`, `'€'`, `'¢'` (the UTF-8 bytes of the bullet glyph `'•'`
mis-decoded as cp1252), not the bullet glyph itself.  Occurrences are
replaced left to right, non-overlapping, by a newline. -/
def replaceBullet : List Char → List Char
  | [] => []
  | [c] => [c]
  | [c1, c2] => [c1, c2]
  | c1 :: c2 :: c3 :: rest =>
    if c1 = 'â' ∧ c2 = '€' ∧ c3 = '¢' then '\n' :: replaceBullet rest
    else c1 :: replaceBullet (c2 :: c3 :: rest)

/-- Python `text.split('\n')`: split at every newline, keeping empty
segments. -/
def splitNewline : List Char → List (List Char)
  | [] => [[]]
  | c :: rest =>
    if c = '\n' then [] :: splitNewline rest
    else
      match splitNewline rest with
      | [] => [[c]]
      | p :: ps => (c :: p) :: ps

/-- `extract_search_entities(text)` from the source: replace `','`, `';'`,
the mojibake sequence `"â€¢"`, and `'-'` by newlines (in that order), split
at newlines, strip each segment, drop empty segments, and deduplicate
(`list(set(...))`, modelled as first-occurrence deduplication). -/
def extract_search_entities (text : String) : List String :=
  let t1 := replaceChar ',' '\n' text.data
  let t2 := replaceChar ';' '\n' t1
  let t3 := replaceBullet t2
  let t4 := replaceChar '-' '\n' t3
  let entities := ((splitNewline t4).map trimChars).filter (fun l => !l.isEmpty)
  (entities.map (fun l => String.mk l)).dedup

/-- Spec-side variant of the scorer, following the spec's words: "this
normalization must match the normalization implicitly applied to catalog
fields", i.e. each component similarity compares the normalized query against
an equally normalized catalog field.  Declared only to be compared with
`calculate_relevance`, which is the embedding of the source. -/
def calculate_relevance_bothNormalized (ops : FuzzOps) (query : String) (skill : Skill) : ℚ :=
  let q := default_process query
  let name_score := ops.partial_ratio q (default_process skill.name)
  let trigger_score := ops.token_set_ratio q (default_process skill.triggers)
  let text_score := ops.token_set_ratio q (default_process skill.full_text)
  name_score * (4/10) + trigger_score * (4/10) + text_score * (2/10)

/-- Exact-equality similarity primitives: 100 when the two strings are equal,
0 otherwise.  A valid `[0,100]` similarity that, like the real `rapidfuzz`
primitives called with `processor=None`, distinguishes letter case. -/
def eqOps : FuzzOps :=
  { partial_ratio := fun a b => if a = b then 100 else 0
    token_set_ratio := fun a b => if a = b then 100 else 0 }

/-- A skill whose catalog fields contain an upper-case letter. -/
def dockerSkill : Skill :=
  { name := "Docker"
    description := ""
    tags := ""
    triggers := "Docker"
    full_text := "Docker" }

/-- The body of the generator expression in `filter_valid_entities`: the best
score of `entity` against the catalog, `max(...)` over a non-empty catalog and
`0` for an empty one (`... if skills else 0` in the source). -/
def bestScore (ops : FuzzOps) (entity : String) (skills : List Skill) : ℚ :=
  match skills.map (calculate_relevance ops entity) with
  | [] => 0
  | x :: xs => xs.foldl max x

/-- `filter_valid_entities(entities, skills)` from the source: keep, in input
order, exactly the entities whose best score reaches `NOISE_THRESHOLD`. -/
def filter_valid_entities (ops : FuzzOps) (entities : List String)
    (skills : List Skill) : List String :=
  entities.filter (fun entity => decide (NOISE_THRESHOLD ≤ bestScore ops entity skills))

/-- Insert a result into a descending-sorted list, after every element with a
strictly greater score and before every element with an equal or smaller
score. -/
def insertDesc (x : SearchResult) : List SearchResult → List SearchResult
  | [] => [x]
  | y :: ys => if x.score < y.score then y :: insertDesc x ys else x :: y :: ys

/-- Stable descending sort by score, the embedding of Python's
`matches.sort(key=lambda x: x.score, reverse=True)` (a stable sort; any two
stable sorts of the same preorder agree extensionally). -/
def sortDesc : List SearchResult → List SearchResult
  | [] => []
  | x :: xs => insertDesc x (sortDesc xs)

/-- The per-entity list of `SearchResult`s built by the comprehension in
`search_skills`, in catalog order. -/
def skillMatches (ops : FuzzOps) (entity : String) (skills : List Skill) :
    List SearchResult :=
  skills.map (fun s => SearchResult.mk s (calculate_relevance ops entity s))

/-- The per-entity result kept by `search_skills`: sort descending by score,
keep the first `top_n`. -/
def searchOne (ops : FuzzOps) (skills : List Skill) (top_n : ℕ) (entity : String) :
    List SearchResult :=
  (sortDesc (skillMatches ops entity skills)).take top_n

/-- `search_skills(entities, skills, top_n)` from the source; the Python dict
(insertion-ordered, keyed by entity) is embedded as an association list. -/
def search_skills (ops : FuzzOps) (entities : List String) (skills : List Skill)
    (top_n : ℕ) : List (String × List SearchResult) :=
  entities.map (fun e => (e, searchOne ops skills top_n e))

/-- The `found_names` set comprehension in `find_bundled_skills`: names of
skills appearing in some kept result with score strictly above 65.0. -/
def foundNames (results : List (String × List SearchResult)) : Finset String :=
  ((results.flatMap (fun p => p.2.filter (fun r => decide ((65 : ℚ) < r.score)))).map
    (fun r => r.skill.name)).toFinset

/-- `find_bundled_skills(results, bundles)` from the source: for every bundle
that intersects the found set, add its skills that are not in the found set
to the extras set.  The Python dict of bundles is embedded as a list of its
values in insertion order. -/
def find_bundled_skills (results : List (String × List SearchResult))
    (bundles : List Bundle) : Finset String :=
  let found_names := foundNames results
  bundles.foldl
    (fun extras b =>
      let bundle_skills := b.skills.toFinset
      if (found_names ∩ bundle_skills).Nonempty then
        extras ∪ (bundle_skills \ found_names)
      else extras)
    ∅

/-- The full core pipeline on an already-extracted entity list: noise
filtering, per-entity search, and bundle expansion (`main` wires these
together in the source). -/
def pipeline (ops : FuzzOps) (skills : List Skill) (bundles : List Bundle)
    (entities : List String) (top_n : ℕ) :
    List (String × List SearchResult) × Finset String :=
  let valid := filter_valid_entities ops entities skills
  let results := search_skills ops valid skills top_n
  (results, find_bundled_skills results bundles)

/-- A second spelling of the constant-60 similarity primitives, pointwise
equal to `constOps`. -/
def constOpsB : FuzzOps :=
  { token_set_ratio := fun _ _ => 60
    partial_ratio := fun _ _ => 60 }

/-- The `skill_map` lookup in `generate_report_content`: the Python dict
comprehension `{s.name: s for s in all_skills}` keeps the last skill for a
duplicated name, and `.get` returns `None` for a missing one. -/
def skillLookup (skills : List Skill) (name : String) : Option Skill :=
  skills.reverse.find? (fun s => s.name == name)

/-- The `core_skills` set in `generate_report_content`: names of skills in a
kept result with score strictly above `HIGH_CONFIDENCE`. -/
def coreSkills (results : List (String × List SearchResult)) : Finset String :=
  ((results.flatMap (fun p => p.2.filter (fun r => decide (HIGH_CONFIDENCE < r.score)))).map
    (fun r => r.skill.name)).toFinset

/-- One listing entry of the report, `f"- **{name}**: {s.description}"`. -/
def listingLine (name desc : String) : String :=
  "- **" ++ name ++ "**: " ++ desc

/-- A listing loop of the report (`s = skill_map.get(name); if s: md.append(...)`):
names missing from the catalog are skipped silently. -/
def listingLines (skills : List Skill) (names : List String) : List String :=
  names.filterMap (fun n => (skillLookup skills n).map (fun s => listingLine n s.description))

/-- One line of the install batch,
`f"Copy-Item -Recurse -Force \x27.agent/skills/skills/{name}\x27 .agent/skills/skills/\n"`;
built from the skill name alone. -/
def installLine (name : String) : String :=
  "Copy-Item -Recurse -Force \x27.agent/skills/skills/" ++ name ++
    "\x27 .agent/skills/skills/\n"

/-- The accumulated install command string of the report. -/
def installCmd (names : List String) : String :=
  names.foldl (fun cmd name => cmd ++ installLine name) "# PowerShell\n"

/-- The `md` list built by `generate_report_content` (joined with newlines at
the end).  Python iterates `sorted(list(core_skills))` for the core section;
its iteration of the `extras` set has unspecified order and is modelled in
sorted order (no claim depends on it). -/
def generate_report_md (results : List (String × List SearchResult))
    (extras : Finset String) (all_skills : List Skill) : List String :=
  let core := coreSkills results
  let recommended_skills := (core ∪ extras).sort (· ≤ ·)
  ["# Skill Implementation Report\n",
   "**Based on analysis of your requirements.**\n",
   "## 1. Required Skills\n",
   "### CORE MATCHES (High Relevance)"] ++
  listingLines all_skills (core.sort (· ≤ ·)) ++
  ["\n### RECOMMENDED (Bundles & Ecosystem)"] ++
  listingLines all_skills (extras.sort (· ≤ ·)) ++
  ["\n## 2. Quick Install\n",
   "Run this command to install the skills:",
   "```powershell",
   installCmd recommended_skills,
   "```\n"]

/-- `generate_report_content(results, extras, all_skills)` from the source:
the markdown lines joined with newlines.  A total function: a core-match or
extras name with no catalog entry is skipped by the listing loops and cannot
make it raise. -/
def generate_report_content (results : List (String × List SearchResult))
    (extras : Finset String) (all_skills : List Skill) : String :=
  "\n".intercalate (generate_report_md results extras all_skills)

/-- Claim C1: `calculate_relevance` returns exactly
`0.4 * name_score + 0.4 * trigger_score + 0.2 * text_score`, and whenever each
component similarity lies in `[0, 100]` the combined score lies in `[0, 100]`
as well. -/
theorem calculate_relevance_formula_bounds (ops : FuzzOps) (q : String) (S : Skill)
    (hn0 : 0 ≤ ops.partial_ratio (default_process q) S.name)
    (hn1 : ops.partial_ratio (default_process q) S.name ≤ 100)
    (ht0 : 0 ≤ ops.token_set_ratio (default_process q) S.triggers)
    (ht1 : ops.token_set_ratio (default_process q) S.triggers ≤ 100)
    (hx0 : 0 ≤ ops.token_set_ratio (default_process q) S.full_text)
    (hx1 : ops.token_set_ratio (default_process q) S.full_text ≤ 100) :
    calculate_relevance ops q S =
      0.4 * ops.partial_ratio (default_process q) S.name +
      0.4 * ops.token_set_ratio (default_process q) S.triggers +
      0.2 * ops.token_set_ratio (default_process q) S.full_text ∧
    0 ≤ calculate_relevance ops q S ∧ calculate_relevance ops q S ≤ 100 := by
  refine ⟨?_, ?_, ?_⟩
  · simp only [calculate_relevance]
    norm_num
    ring
  · simp only [calculate_relevance]
    linarith
  · simp only [calculate_relevance]
    linarith

/-- Witness for C1 at the concrete instantiation `constOps`, query
`"docker"`, skill `sk0`. -/
theorem calculate_relevance_formula_bounds_witness :
    (0 ≤ constOps.partial_ratio (default_process "docker") sk0.name ∧
      constOps.partial_ratio (default_process "docker") sk0.name ≤ 100) ∧
    calculate_relevance constOps "docker" sk0 =
      0.4 * constOps.partial_ratio (default_process "docker") sk0.name +
      0.4 * constOps.token_set_ratio (default_process "docker") sk0.triggers +
      0.2 * constOps.token_set_ratio (default_process "docker") sk0.full_text ∧
    0 ≤ calculate_relevance constOps "docker" sk0 ∧
    calculate_relevance constOps "docker" sk0 ≤ 100 :=
  ⟨⟨by decide, by decide⟩,
    calculate_relevance_formula_bounds constOps "docker" sk0
      (by decide) (by decide) (by decide) (by decide) (by decide) (by decide)⟩

/-- Claim C7 (failing input): the source's delimiter list contains the
mojibake sequence `"â€¢"` rather than the bullet glyph `'•'` (U+2022), so an
input containing a real bullet is not split there: `"a•b"` comes back as the
single entity `"a•b"` instead of the two entities `"a"` and `"b"`. -/
theorem extract_search_entities_mojibake_bullet :
    extract_search_entities "a•b" = ["a•b"] ∧
    extract_search_entities "a•b" ≠ ["a", "b"] := by
  constructor <;> decide

/-- Membership in `replaceChar`: every output character is an untouched input
character or the replacement. -/
theorem mem_replaceChar {x c r : Char} {l : List Char}
    (h : x ∈ replaceChar c r l) : x ∈ l ∨ x = r := by
  rcases List.mem_map.1 h with ⟨y, hy, hxy⟩
  by_cases hyc : y = c
  · simp [hyc] at hxy; exact Or.inr hxy.symm
  · simp [hyc] at hxy; exact Or.inl (hxy ▸ hy)

/-- `replaceChar` removes every occurrence of the pattern character (when the
replacement differs from it). -/
theorem not_mem_replaceChar {c r : Char} (hcr : c ≠ r) (l : List Char) :
    c ∉ replaceChar c r l := by
  intro h
  rcases List.mem_map.1 h with ⟨y, _, hxy⟩
  by_cases hyc : y = c
  · simp [hyc] at hxy; exact hcr hxy.symm
  · simp [hyc] at hxy

/-- Membership in `replaceBullet`: every output character is an input
character or a newline. -/
theorem mem_replaceBullet {x : Char} : ∀ {l : List Char},
    x ∈ replaceBullet l → x ∈ l ∨ x = '\n'
  | [], h => by simp [replaceBullet] at h
  | [c], h => by rw [replaceBullet] at h; exact Or.inl h
  | [c1, c2], h => by rw [replaceBullet] at h; exact Or.inl h
  | c1 :: c2 :: c3 :: rest, h => by
    rw [replaceBullet] at h
    split at h
    · rcases List.mem_cons.1 h with h | h
      · exact Or.inr h
      · rcases mem_replaceBullet h with h | h
        · exact Or.inl (by simp [h])
        · exact Or.inr h
    · rcases List.mem_cons.1 h with h | h
      · exact Or.inl (by simp [h])
      · rcases mem_replaceBullet h with h | h
        · exact Or.inl (by simp at h ⊢; tauto)
        · exact Or.inr h

/-- Every character of every segment of `splitNewline l` is a character of
`l`. -/
theorem mem_splitNewline {x : Char} : ∀ {l p : List Char},
    p ∈ splitNewline l → x ∈ p → x ∈ l
  | [], p, hp, hx => by
    simp [splitNewline] at hp; subst hp; simp at hx
  | c :: rest, p, hp, hx => by
    rw [splitNewline] at hp
    split at hp
    · rcases List.mem_cons.1 hp with h | h
      · subst h; simp at hx
      · exact List.mem_cons_of_mem _ (mem_splitNewline h hx)
    · revert hp
      split
      · intro hp
        simp at hp; subst hp
        simp at hx; simp [hx]
      · rename_i p' ps hps
        intro hp
        rcases List.mem_cons.1 hp with h | h
        · subst h
          rcases List.mem_cons.1 hx with h | h
          · simp [h]
          · exact List.mem_cons_of_mem _
              (mem_splitNewline (l := rest) (by rw [hps]; exact List.mem_cons_self _ _) h)
        · exact List.mem_cons_of_mem _
            (mem_splitNewline (l := rest) (by rw [hps]; exact List.mem_cons_of_mem _ h) hx)

/-- Every character kept by `trimChars` was in the input. -/
theorem mem_trimChars {x : Char} {l : List Char} (h : x ∈ trimChars l) : x ∈ l := by
  simp only [trimChars, List.mem_reverse] at h
  have h2 : x ∈ (l.dropWhile Char.isWhitespace).reverse :=
    List.Sublist.mem h (List.dropWhile_sublist _)
  exact List.Sublist.mem (List.mem_reverse.1 h2) (List.dropWhile_sublist _)

/-- Claim C9: no entity produced by `extract_search_entities` contains a
comma, a semicolon, or a hyphen (each is replaced by a newline before the
split), and consequently the hyphenated name `"docker-compose"` can never be
an extracted entity. -/
theorem extract_search_entities_no_delimiters (text : String) :
    (∀ e ∈ extract_search_entities text,
      ',' ∉ e.data ∧ ';' ∉ e.data ∧ '-' ∉ e.data) ∧
    "docker-compose" ∉ extract_search_entities text := by
  have main : ∀ e ∈ extract_search_entities text,
      ',' ∉ e.data ∧ ';' ∉ e.data ∧ '-' ∉ e.data := by
    intro e he
    rcases List.mem_map.1 (List.dedup_subset _ he) with ⟨l, hl, hel⟩
    rcases List.mem_filter.1 hl with ⟨hl, -⟩
    rcases List.mem_map.1 hl with ⟨p, hp, htrim⟩
    have hchar : ∀ x : Char, x ∈ e.data → x ∈ replaceChar '-' '\n'
        (replaceBullet (replaceChar ';' '\n' (replaceChar ',' '\n' text.data))) := by
      intro x hx
      have : x ∈ l := by subst hel; simpa using hx
      exact mem_splitNewline hp (mem_trimChars (htrim ▸ this))
    refine ⟨fun h => ?_, fun h => ?_, fun h => ?_⟩
    · rcases mem_replaceChar (hchar ',' h) with h4 | h4
      · rcases mem_replaceBullet h4 with h3 | h3
        · rcases mem_replaceChar h3 with h2 | h2
          · exact not_mem_replaceChar (by decide) _ h2
          · exact absurd h2 (by decide)
        · exact absurd h3 (by decide)
      · exact absurd h4 (by decide)
    · rcases mem_replaceChar (hchar ';' h) with h4 | h4
      · rcases mem_replaceBullet h4 with h3 | h3
        · exact not_mem_replaceChar (by decide) _ h3
        · exact absurd h3 (by decide)
      · exact absurd h4 (by decide)
    · exact not_mem_replaceChar (by decide) _ (hchar '-' h)
  refine ⟨main, fun h => ?_⟩
  exact (main _ h).2.2 (by decide)

/-- Witness for C9 at the concrete input `"a,b"`. -/
theorem extract_search_entities_no_delimiters_witness :
    (∀ e ∈ extract_search_entities "a,b",
      ',' ∉ e.data ∧ ';' ∉ e.data ∧ '-' ∉ e.data) ∧
    "docker-compose" ∉ extract_search_entities "a,b" :=
  extract_search_entities_no_delimiters "a,b"

/-- `default_process` lowercases the word `"Docker"`. -/
theorem default_process_Docker : default_process "Docker" = "docker" := by decide

/-- Claim C2 (counterexample): `calculate_relevance` does not normalize the
skill-side strings — `default_process` is applied to the query only, and
`skill.name`, `skill.triggers`, `skill.full_text` are passed raw to the
similarity primitives.  With case-sensitive primitives and the skill
`"Docker"`, the source scores the query `"Docker"` at 0, while the
spec-described both-sides-normalized scorer gives 100. -/
theorem calculate_relevance_not_bothNormalized :
    calculate_relevance eqOps "Docker" dockerSkill ≠
      calculate_relevance_bothNormalized eqOps "Docker" dockerSkill := by
  have hne : ("docker" : String) ≠ "Docker" := by decide
  simp [calculate_relevance, calculate_relevance_bothNormalized, eqOps,
    dockerSkill, default_process_Docker, hne]
  norm_num

/-- Claim C2 (amended): the query alone is normalized with `default_process`;
the skill-side comparison strings are passed to the similarity primitives
unnormalized, so the scorer agrees with the spec's both-sides-normalized
scorer exactly when the primitives are insensitive to normalization of their
second argument. -/
theorem calculate_relevance_query_only_normalization (ops : FuzzOps)
    (hpr : ∀ a b, ops.partial_ratio a (default_process b) = ops.partial_ratio a b)
    (htsr : ∀ a b, ops.token_set_ratio a (default_process b) = ops.token_set_ratio a b)
    (q : String) (S : Skill) :
    calculate_relevance ops q S = calculate_relevance_bothNormalized ops q S := by
  simp only [calculate_relevance, calculate_relevance_bothNormalized, hpr, htsr]

/-- Witness for the amended C2 at the normalization-insensitive instantiation
`constOps`, query `"Docker"`, skill `dockerSkill`. -/
theorem calculate_relevance_query_only_normalization_witness :
    (∀ a b, constOps.partial_ratio a (default_process b) = constOps.partial_ratio a b) ∧
    (∀ a b, constOps.token_set_ratio a (default_process b) = constOps.token_set_ratio a b) ∧
    calculate_relevance constOps "Docker" dockerSkill =
      calculate_relevance_bothNormalized constOps "Docker" dockerSkill :=
  ⟨fun _ _ => rfl, fun _ _ => rfl,
    calculate_relevance_query_only_normalization constOps
      (fun _ _ => rfl) (fun _ _ => rfl) "Docker" dockerSkill⟩

/-- A threshold is below a left fold of `max` exactly when it is below the
seed or below some list element. -/
theorem le_foldl_max_iff (t : ℚ) : ∀ (xs : List ℚ) (x : ℚ),
    t ≤ xs.foldl max x ↔ t ≤ x ∨ ∃ y ∈ xs, t ≤ y
  | [], x => by simp
  | y :: ys, x => by
    rw [List.foldl_cons, le_foldl_max_iff t ys (max x y)]
    simp only [le_max_iff, List.mem_cons]
    constructor
    · rintro ((h | h) | ⟨z, hz, htz⟩)
      · exact Or.inl h
      · exact Or.inr ⟨y, Or.inl rfl, h⟩
      · exact Or.inr ⟨z, Or.inr hz, htz⟩
    · rintro (h | ⟨z, rfl | hz, htz⟩)
      · exact Or.inl (Or.inl h)
      · exact Or.inl (Or.inr htz)
      · exact Or.inr ⟨z, hz, htz⟩

/-- `bestScore` reaches the noise threshold exactly when some catalog skill
scores at least that much. -/
theorem noise_le_bestScore_iff (ops : FuzzOps) (e : String) :
    ∀ skills : List Skill, NOISE_THRESHOLD ≤ bestScore ops e skills ↔
      ∃ s ∈ skills, NOISE_THRESHOLD ≤ calculate_relevance ops e s
  | [] => by simp [bestScore, NOISE_THRESHOLD]
  | s :: rest => by
    show NOISE_THRESHOLD ≤ (rest.map (calculate_relevance ops e)).foldl max
        (calculate_relevance ops e s) ↔ _
    rw [le_foldl_max_iff]
    constructor
    · rintro (h | ⟨y, hy, hty⟩)
      · exact ⟨s, List.mem_cons_self _ _, h⟩
      · rcases List.mem_map.1 hy with ⟨s', hs', rfl⟩
        exact ⟨s', List.mem_cons_of_mem _ hs', hty⟩
    · rintro ⟨s', hs', hts⟩
      rcases List.mem_cons.1 hs' with rfl | hmem
      · exact Or.inl hts
      · exact Or.inr ⟨_, List.mem_map_of_mem _ hmem, hts⟩

/-- Claim C4: `filter_valid_entities` retains an entity exactly when it
occurs in the input and its best score against some catalog skill is at least
`NOISE_THRESHOLD`; with an empty catalog the best score is `0`, so nothing is
retained (and the total function cannot crash). -/
theorem filter_valid_entities_iff (ops : FuzzOps) (entities : List String)
    (skills : List Skill) :
    (∀ e, e ∈ filter_valid_entities ops entities skills ↔
        e ∈ entities ∧ ∃ s ∈ skills, NOISE_THRESHOLD ≤ calculate_relevance ops e s) ∧
    (∀ e, bestScore ops e [] = 0) ∧
    filter_valid_entities ops entities [] = [] := by
  refine ⟨fun e => ?_, fun e => rfl, ?_⟩
  · rw [filter_valid_entities, List.mem_filter, decide_eq_true_eq,
      noise_le_bestScore_iff]
  · rw [filter_valid_entities, List.filter_eq_nil_iff]
    intro e _
    simp [bestScore, NOISE_THRESHOLD]

/-- Membership in `insertDesc`: the inserted element or a list element. -/
theorem mem_insertDesc {a x : SearchResult} : ∀ {l : List SearchResult},
    a ∈ insertDesc x l → a = x ∨ a ∈ l
  | [], h => by
    rw [insertDesc] at h
    exact Or.inl (List.mem_singleton.1 h)
  | y :: ys, h => by
    rw [insertDesc] at h
    split at h
    · rcases List.mem_cons.1 h with h | h
      · subst h; exact Or.inr (List.mem_cons_self _ _)
      · rcases mem_insertDesc h with h | h
        · exact Or.inl h
        · exact Or.inr (List.mem_cons_of_mem _ h)
    · rcases List.mem_cons.1 h with h | h
      · exact Or.inl h
      · exact Or.inr h

/-- `insertDesc` preserves descending sortedness. -/
theorem pairwise_insertDesc {x : SearchResult} : ∀ {l : List SearchResult},
    l.Pairwise (fun a b => b.score ≤ a.score) →
    (insertDesc x l).Pairwise (fun a b => b.score ≤ a.score)
  | [], _ => List.pairwise_singleton _ _
  | y :: ys, h => by
    rw [insertDesc]
    rcases List.pairwise_cons.1 h with ⟨hy, hys⟩
    split
    · rename_i hxy
      refine List.pairwise_cons.2 ⟨?_, pairwise_insertDesc hys⟩
      intro a ha
      rcases mem_insertDesc ha with rfl | ha
      · exact le_of_lt hxy
      · exact hy a ha
    · rename_i hxy
      push_neg at hxy
      refine List.pairwise_cons.2 ⟨?_, h⟩
      intro a ha
      rcases List.mem_cons.1 ha with rfl | ha
      · exact hxy
      · exact le_trans (hy a ha) hxy

/-- The sorted matches are in non-increasing score order. -/
theorem pairwise_sortDesc : ∀ l : List SearchResult,
    (sortDesc l).Pairwise (fun a b => b.score ≤ a.score)
  | [] => List.Pairwise.nil
  | _ :: xs => pairwise_insertDesc (pairwise_sortDesc xs)

/-- Stability of `insertDesc` as seen through score-level filters: inserting
`x` and then keeping the results with score `v` is the same as prepending `x`
when its score is `v` (it goes in front of every equal-scored element) and a
no-op on the filter otherwise. -/
theorem filter_insertDesc (v : ℚ) (x : SearchResult) : ∀ l : List SearchResult,
    (insertDesc x l).filter (fun r => decide (r.score = v)) =
      (if x.score = v then [x] else []) ++ l.filter (fun r => decide (r.score = v))
  | [] => by
    rw [insertDesc]
    by_cases hx : x.score = v
    · rw [if_pos hx]; simp [hx]
    · rw [if_neg hx]; simp [hx]
  | y :: ys => by
    rw [insertDesc]
    split
    · rename_i hxy
      by_cases hy : y.score = v
      · have hx : ¬ x.score = v := by
          intro h
          rw [h, ← hy] at hxy
          exact lt_irrefl _ hxy
        rw [List.filter_cons_of_pos (by simpa using hy),
          filter_insertDesc v x ys, if_neg hx,
          List.filter_cons_of_pos (by simpa using hy)]
        simp
      · rw [List.filter_cons_of_neg (by simpa using hy),
          filter_insertDesc v x ys,
          List.filter_cons_of_neg (by simpa using hy)]
    · by_cases hx : x.score = v
      · rw [List.filter_cons_of_pos (by simpa using hx), if_pos hx]
        rfl
      · rw [List.filter_cons_of_neg (by simpa using hx), if_neg hx]
        rfl

/-- Stability of `sortDesc`: for every score value `v`, the elements scoring
`v` appear in the sorted list exactly as they appear in the input — equal
scores keep their original order. -/
theorem filter_sortDesc (v : ℚ) : ∀ l : List SearchResult,
    (sortDesc l).filter (fun r => decide (r.score = v)) =
      l.filter (fun r => decide (r.score = v))
  | [] => rfl
  | x :: xs => by
    rw [sortDesc, filter_insertDesc v x (sortDesc xs), filter_sortDesc v xs]
    by_cases hx : x.score = v
    · rw [if_pos hx, List.filter_cons_of_pos (by simpa using hx)]
      rfl
    · rw [if_neg hx, List.filter_cons_of_neg (by simpa using hx)]
      rfl

/-- Claim C5: every entry of `search_skills` pairs a surviving entity with the
scores of that entity against every catalog skill, sorted in non-increasing
score order, with equal scores kept in original catalog order (stability of
the sort), and truncated to at most `top_n` results. -/
theorem search_skills_sorted_stable_topn (ops : FuzzOps) (entities : List String)
    (skills : List Skill) (top_n : ℕ) :
    ∀ p ∈ search_skills ops entities skills top_n,
      p.2 = (sortDesc (skillMatches ops p.1 skills)).take top_n ∧
      p.2.Pairwise (fun a b => b.score ≤ a.score) ∧
      p.2.length ≤ top_n ∧
      ∀ v : ℚ, (sortDesc (skillMatches ops p.1 skills)).filter
          (fun r => decide (r.score = v)) =
        (skillMatches ops p.1 skills).filter (fun r => decide (r.score = v)) := by
  rintro ⟨e, res⟩ hp
  rcases List.mem_map.1 hp with ⟨e', he', heq⟩
  obtain ⟨rfl, rfl⟩ : e' = e ∧ (searchOne ops skills top_n e' : List SearchResult) = res := by
    constructor
    · exact congrArg Prod.fst heq
    · exact congrArg Prod.snd heq
  refine ⟨rfl, ?_, ?_, fun v => filter_sortDesc v _⟩
  · exact (pairwise_sortDesc _).sublist (List.take_sublist _ _)
  · exact List.length_take_le _ _

/-- Witness for C5: the entry for entity `"docker"` in a one-skill search with
`top_n = 0` (the kept list is empty, trivially sorted and within bounds). -/
theorem search_skills_sorted_stable_topn_witness :
    (("docker", ([] : List SearchResult)) ∈ search_skills constOps ["docker"] [sk0] 0) ∧
    (("docker", ([] : List SearchResult)).2 =
      (sortDesc (skillMatches constOps "docker" [sk0])).take 0 ∧
    ([] : List SearchResult).Pairwise (fun a b => b.score ≤ a.score) ∧
    ([] : List SearchResult).length ≤ 0 ∧
    ∀ v : ℚ, (sortDesc (skillMatches constOps "docker" [sk0])).filter
        (fun r => decide (r.score = v)) =
      (skillMatches constOps "docker" [sk0]).filter (fun r => decide (r.score = v))) :=
  ⟨by simp [search_skills, searchOne],
    search_skills_sorted_stable_topn constOps ["docker"] [sk0] 0
      ("docker", ([] : List SearchResult)) (by simp [search_skills, searchOne])⟩

/-- The fold in `find_bundled_skills` only ever unions in sets that avoid
`found_names`. -/
theorem find_bundled_skills_foldl_disjoint (found : Finset String) :
    ∀ (bundles : List Bundle) (acc : Finset String), Disjoint acc found →
      Disjoint (bundles.foldl
        (fun extras b =>
          if (found ∩ b.skills.toFinset).Nonempty then
            extras ∪ (b.skills.toFinset \ found)
          else extras) acc) found
  | [], acc, hacc => hacc
  | b :: rest, acc, hacc => by
    rw [List.foldl_cons]
    refine find_bundled_skills_foldl_disjoint found rest _ ?_
    split
    · exact Finset.disjoint_union_left.2 ⟨hacc, Finset.sdiff_disjoint⟩
    · exact hacc

/-- Claim C6: the extras set returned by `find_bundled_skills` is disjoint
from the found set (skill names with a kept score strictly above 65.0):
bundle expansion only ever adds names absent from the core match set. -/
theorem find_bundled_skills_disjoint_found (results : List (String × List SearchResult))
    (bundles : List Bundle) :
    Disjoint (find_bundled_skills results bundles) (foundNames results) :=
  find_bundled_skills_foldl_disjoint (foundNames results) bundles ∅
    (Finset.disjoint_empty_left _)

/-- Claim C8: the pipeline is deterministic and `calculate_relevance` is
pure.  Two runs are modelled as two instances of the external similarity
primitives; whenever they return the same values on the same arguments (the
library is deterministic), the two runs produce identical Result Sets and
extras sets, and identical scores. -/
theorem pipeline_deterministic (ops1 ops2 : FuzzOps)
    (hpr : ∀ a b, ops1.partial_ratio a b = ops2.partial_ratio a b)
    (htsr : ∀ a b, ops1.token_set_ratio a b = ops2.token_set_ratio a b)
    (skills : List Skill) (bundles : List Bundle) (entities : List String)
    (top_n : ℕ) (q : String) (S : Skill) :
    pipeline ops1 skills bundles entities top_n =
      pipeline ops2 skills bundles entities top_n ∧
    calculate_relevance ops1 q S = calculate_relevance ops2 q S := by
  have hops : ops1 = ops2 := by
    cases ops1
    cases ops2
    simp only [FuzzOps.mk.injEq]
    exact ⟨funext fun a => funext fun b => hpr a b,
      funext fun a => funext fun b => htsr a b⟩
  subst hops
  exact ⟨rfl, rfl⟩

/-- Witness for C8 at two pointwise-equal instantiations of the similarity
primitives. -/
theorem pipeline_deterministic_witness :
    (∀ a b, constOps.partial_ratio a b = constOpsB.partial_ratio a b) ∧
    (∀ a b, constOps.token_set_ratio a b = constOpsB.token_set_ratio a b) ∧
    (pipeline constOps [sk0] [] ["docker"] 5 =
      pipeline constOpsB [sk0] [] ["docker"] 5 ∧
    calculate_relevance constOps "docker" sk0 =
      calculate_relevance constOpsB "docker" sk0) :=
  ⟨fun _ _ => rfl, fun _ _ => rfl,
    pipeline_deterministic constOps constOpsB (fun _ _ => rfl) (fun _ _ => rfl)
      [sk0] [] ["docker"] 5 "docker" sk0⟩

/-- A name outside the catalog has no entry in the skill map. -/
theorem skillLookup_eq_none {skills : List Skill} {name : String}
    (h : name ∉ skills.map Skill.name) : skillLookup skills name = none := by
  rw [skillLookup, List.find?_eq_none]
  intro s hs
  simp only [beq_iff_eq]
  intro hname
  exact h (hname ▸ List.mem_map_of_mem Skill.name (List.mem_reverse.1 hs))

/-- Claim C10: `generate_report_content` handles a core-match or extras name
that is not in the catalog without raising: such a name contributes nothing
to the listing sections (filtering it away changes no listing), while the
install command batch, built from names alone, still contains its install
line whenever it is recommended; the install command string is a line of the
report. -/
theorem generate_report_missing_name (results : List (String × List SearchResult))
    (extras : Finset String) (skills : List Skill) (name : String)
    (h : name ∉ skills.map Skill.name) :
    (∀ names : List String,
      listingLines skills names = listingLines skills (names.filter (fun m => m != name))) ∧
    (name ∈ coreSkills results ∪ extras →
      installLine name ∈ ((coreSkills results ∪ extras).sort (· ≤ ·)).map installLine) ∧
    installCmd ((coreSkills results ∪ extras).sort (· ≤ ·)) ∈
      generate_report_md results extras skills := by
  have hlook := skillLookup_eq_none h
  refine ⟨?_, ?_, ?_⟩
  · intro names
    induction names with
    | nil => rfl
    | cons n ns ih =>
      by_cases hn : n = name
      · subst hn
        simp only [listingLines, List.filterMap_cons, hlook, Option.map_none,
          List.filter_cons, bne_self_eq_false, Bool.false_eq_true, if_false]
        exact ih
      · simp only [listingLines, List.filterMap_cons, List.filter_cons,
          bne_iff_ne, ne_eq, hn, not_false_eq_true, if_true]
        rcases skillLookup skills n with - | s
        · exact ih
        · simp only [Option.map_some, listingLines] at ih ⊢
          rw [ih]
  · intro hmem
    exact List.mem_map_of_mem installLine ((Finset.mem_sort _).2 hmem)
  · simp [generate_report_md]

/-- Witness for C10 with an empty catalog and the recommended ghost name
`"ghost"` (present in extras, absent from the catalog). -/
theorem generate_report_missing_name_witness :
    ("ghost" ∉ (([] : List Skill)).map Skill.name) ∧
    ((∀ names : List String,
      listingLines [] names = listingLines [] (names.filter (fun m => m != "ghost"))) ∧
    ("ghost" ∈ coreSkills [] ∪ ({"ghost"} : Finset String) →
      installLine "ghost" ∈
        ((coreSkills [] ∪ ({"ghost"} : Finset String)).sort (· ≤ ·)).map installLine) ∧
    installCmd ((coreSkills [] ∪ ({"ghost"} : Finset String)).sort (· ≤ ·)) ∈
      generate_report_md [] ({"ghost"} : Finset String) []) :=
  ⟨by simp,
    generate_report_missing_name [] ({"ghost"} : Finset String) [] "ghost" (by simp)⟩

end FindSkills
